import Mathlib

/-!
Shallow embedding of the PGR New Starter Roster Tool scripts
(`scripts/convert_pdf_to_competency_bundle.py` and
`scripts/generate_competency_workbook.py`).

Python strings are modelled as `List Char`; the Python string methods used by
the scripts (`str.lower`, `str.upper`, `str.split`, `str.strip`, `str.islower`)
are modelled at the ASCII level, matching their behaviour on the ASCII inputs
the scripts process.
-/

namespace PGR

/-- A Python string, modelled as a list of characters. -/
abbrev Str := List Char

/-- Convert a Lean string literal to the `Str` model. -/
def strOf (s : String) : Str := s.data

/-- ASCII model of the character class matched by the regex `\s`
(and of Python `str.strip` / `str.split` whitespace). -/
def isSpace (c : Char) : Bool := c.isWhitespace

/-- Model of Python `str.lower` (ASCII level). -/
def lowerStr (s : Str) : Str := s.map Char.toLower

/-- Model of Python `str.upper` (ASCII level). -/
def upperStr (s : Str) : Str := s.map Char.toUpper

/-- Model of Python `str.strip()`: drop whitespace from both ends. -/
def pyStrip (s : Str) : Str :=
  ((s.dropWhile isSpace).reverse.dropWhile isSpace).reverse

/-- Model of Python `str.strip(chars)` for a single strip character:
drop that character from both ends. -/
def pyStripChar (c : Char) (s : Str) : Str :=
  ((s.dropWhile (· == c)).reverse.dropWhile (· == c)).reverse

/-- The worker of `pySplit`: `acc` holds the characters of the word in
progress, in reverse. -/
def pySplitAux : Str → Str → List Str
  | acc, [] => if acc.isEmpty then [] else [acc.reverse]
  | acc, c :: cs =>
      if isSpace c then
        if acc.isEmpty then pySplitAux [] cs
        else acc.reverse :: pySplitAux [] cs
      else pySplitAux (c :: acc) cs

/-- Model of Python `str.split()` (no separator): split on whitespace runs,
discarding empty fragments. -/
def pySplit (s : Str) : List Str := pySplitAux [] s

/-- Model of Python `" ".join(parts)`. -/
def joinSpace (parts : List Str) : Str := List.intercalate [' '] parts

/-- The decimal digit character for a value below ten (models the digits
produced by Python decimal formatting). -/
def digitChar (d : Nat) : Char :=
  match d with
  | 0 => '0' | 1 => '1' | 2 => '2' | 3 => '3' | 4 => '4'
  | 5 => '5' | 6 => '6' | 7 => '7' | 8 => '8' | 9 => '9'
  | _ => '*'

/-- Fuel-driven worker of `natDigits` (the fuel makes the recursion
structural; any fuel above the argument gives the decimal digits). -/
def natDigitsAux : Nat → Nat → Str
  | 0, _ => []
  | fuel + 1, n =>
      if n < 10 then [digitChar n]
      else natDigitsAux fuel (n / 10) ++ [digitChar (n % 10)]

/-- Model of Python decimal rendering of a non-negative integer, as used by
f-strings such as `f"(base)-(count)"`. -/
def natDigits (n : Nat) : Str := natDigitsAux (n + 1) n

/-! ### Constants of `convert_pdf_to_competency_bundle.py` -/

/-- The ordered table of heading prefixes with their canonical display titles. -/
def SECTION_PATTERNS : List (Str × Str) :=
  [(strOf "STARTING SHIFT", strOf "Starting Shift"),
   (strOf "IMPORTANT LOCATIONS", strOf "Important Locations"),
   (strOf "BEPOZ/CASH HANDLING", strOf "Bepoz & Cash Handling"),
   (strOf "BARS", strOf "Bars"),
   (strOf "BAR KNOWLEDGE", strOf "Bar Knowledge"),
   (strOf "FOOD OFFERINGS", strOf "Food Offerings"),
   (strOf "FLOOR", strOf "Floor"),
   (strOf "BOH CLEANING/DUTIES", strOf "BOH Cleaning & Duties")]

/-- The set of stray layout tokens whose lines are discarded outright. -/
def SKIP_TOKENS : List Str :=
  [strOf "TRAINER", strOf "SUPERVISOR", strOf "FROM", strOf "OASIS",
   strOf "SOVEREIGN", strOf "S", strOf "DISP", strOf "NORTH", strOf "SOUTH"]

/-- The closed set of continuation-prone trailing function words. -/
def CONTINUATION_SUFFIXES : List Str :=
  [strOf "and", strOf "of", strOf "the", strOf "for", strOf "to", strOf "with",
   strOf "on", strOf "into", strOf "between", strOf "from", strOf "all"]

/-! ### Heading detection and item normalisation -/

/-- The loop body of `is_section_header`: scan the pattern table in order and
return the title paired with the first prefix of the uppercased line. -/
def headerScan : List (Str × Str) → Str → Bool × Option Str
  | [], _ => (false, none)
  | (pat, title) :: rest, upper =>
      if pat.isPrefixOf upper then (true, some title) else headerScan rest upper

/-- `is_section_header(line)` from the converter script. -/
def is_section_header (line : Str) : Bool × Option Str :=
  headerScan SECTION_PATTERNS (upperStr line)

/-- Model of `re.sub(r"\s+NA$", "", text, flags=re.IGNORECASE)`: remove one
trailing run of whitespace followed by a case-insensitive "NA". -/
def stripTrailingNA (s : Str) : Str :=
  match s.reverse with
  | a :: n :: c :: rest =>
      if (a == 'a' || a == 'A') && (n == 'n' || n == 'N') && isSpace c then
        ((c :: rest).dropWhile isSpace).reverse
      else s
  | _ => s

/-- The worker of `endashSub`. `swallow` is set inside the trailing `\s*` of
a match just replaced (those spaces are consumed); `pend` holds, in reverse,
a run of whitespace read but not yet attributed: it becomes the leading `\s*`
of a match if an en-dash follows, and is emitted unchanged otherwise. -/
def endashSubAux : Bool → Str → Str → Str
  | _, pend, [] => pend.reverse
  | swallow, pend, c :: cs =>
      if isSpace c then
        if swallow then endashSubAux true pend cs
        else endashSubAux false (c :: pend) cs
      else if c == '–' then ' ' :: '-' :: ' ' :: endashSubAux true [] cs
      else pend.reverse ++ c :: endashSubAux false [] cs

/-- Model of `re.sub(r"\s*–\s*", " - ", text)`: every en-dash, together with
the whitespace around it, becomes a plain " - " separator. -/
def endashSub (s : Str) : Str := endashSubAux false [] s

/-- The worker of `collapseSpaces`: the flag records whether the previous
character was whitespace (already emitted as the run's single space). -/
def collapseSpacesAux : Bool → Str → Str
  | _, [] => []
  | inRun, c :: cs =>
      if isSpace c then
        if inRun then collapseSpacesAux true cs
        else ' ' :: collapseSpacesAux true cs
      else c :: collapseSpacesAux false cs

/-- Model of `re.sub(r"\s+", " ", text)`: collapse each whitespace run to one
space. -/
def collapseSpaces (s : Str) : Str := collapseSpacesAux false s

/-- `normalise_item_text(text)` from the converter script. -/
def normalise_item_text (text : Str) : Str :=
  pyStrip (collapseSpaces (endashSub (stripTrailingNA (pyStrip text))))

/-! ### Continuation heuristic -/

/-- `should_continue(previous, current)` from the converter script. -/
def should_continue (previous current : Str) : Bool :=
  match previous, current with
  | [], _ => false
  | _ :: _, [] => true
  | _ :: _, c :: _ =>
      if c == '(' || c.isLower then true
      else
        let words := pySplit previous
        if !words.isEmpty && CONTINUATION_SUFFIXES.contains (lowerStr (words.getLastD [])) then
          true
        else if (words.map lowerStr).contains (strOf "between") &&
            (pySplit current).length ≤ 2 then
          true
        else if (pySplit current).length == 1 && upperStr current == current then
          true
        else false

/-! ### Section parsing -/

/-- A parsed section: the dict with keys "title" and "items" built by
`parse_sections`. -/
structure PSection where
  title : Str
  items : List Str
deriving Repr, DecidableEq

/-- Python `title or line` for an optional `title`: the fallback fires when
`title` is `None` or the empty string. -/
def pyOrStr (t : Option Str) (line : Str) : Str :=
  match t with
  | some s => if s.isEmpty then line else s
  | none => line

/-- Append an item to the section most recently added to the list (the
Python code mutates `current_section`, which is always the last element of
`sections` once one exists). -/
def appendToLast : List PSection → Str → List PSection
  | [], _ => []
  | [s], t => [⟨s.title, s.items ++ [t]⟩]
  | s :: r :: rest, t => s :: appendToLast (r :: rest) t

/-- `flush_buffer` from `parse_sections`: join the buffered lines with single
spaces, normalise, and append to the current (= last) section when the result
is non-empty; a missing current section or an empty buffer is a no-op. The
buffer itself is always cleared by the caller. -/
def flush_buffer (secs : List PSection) (buf : List Str) : List PSection :=
  if secs.isEmpty || buf.isEmpty then secs
  else
    let text := normalise_item_text (joinSpace buf)
    if text.isEmpty then secs else appendToLast secs text

/-- One iteration of the `for line in lines` loop of `parse_sections`,
acting on the state (sections so far, current buffer). -/
def parseStep (st : List PSection × List Str) (line : Str) : List PSection × List Str :=
  let secs := st.1
  let buf := st.2
  if line.isEmpty then (flush_buffer secs buf, [])
  else
    match is_section_header line with
    | (true, titleOpt) =>
        let secs2 := flush_buffer secs buf
        if secs2.getLast?.map PSection.title == titleOpt then (secs2, [])
        else (secs2 ++ [⟨pyOrStr titleOpt line, []⟩], [])
    | (false, _) =>
        let tokens := pySplit (upperStr line)
        if !tokens.isEmpty && tokens.all (fun t => SKIP_TOKENS.contains t) then
          (secs, buf)
        else
          let cleaned := normalise_item_text line
          if cleaned.isEmpty then (flush_buffer secs buf, [])
          else if !buf.isEmpty && should_continue (buf.getLastD []) cleaned then
            (secs, buf ++ [cleaned])
          else (flush_buffer secs buf, [cleaned])

/-- `parse_sections(lines)` from the converter script. -/
def parse_sections (lines : List Str) : List PSection :=
  let st := lines.foldl parseStep ([], [])
  flush_buffer st.1 st.2

/-! ### Slug assignment and bundle building -/

/-- A character that survives the slug regex `[^a-z0-9]+` untouched. -/
def isSlugChar (c : Char) : Bool := c.isLower || c.isDigit

/-- Model of `re.sub(r"[^a-z0-9]+", "-", s)`: each maximal run of non-slug
characters becomes a single dash. The flag records whether the previous
character belonged to such a run. -/
def collapseNonSlug : Bool → Str → Str
  | _, [] => []
  | inRun, c :: cs =>
      if isSlugChar c then c :: collapseNonSlug false cs
      else if inRun then collapseNonSlug true cs
      else '-' :: collapseNonSlug true cs

/-- The base slug of a label: lowercase, collapse non-alphanumeric runs to
dashes, strip dashes from both ends, and fall back to "item" when empty. -/
def slugBase (text : Str) : Str :=
  let stripped := pyStripChar '-' (collapseNonSlug false (lowerStr text))
  if stripped.isEmpty then strOf "item" else stripped

/-- `slugify(text, seen)` from the converter script: returns the assigned id
and the updated `seen` occurrence map (`seen` models the shared
`defaultdict(int)` of `build_bundle`). -/
def slugify (text : Str) (seen : Str → Nat) : Str × (Str → Nat) :=
  let base := slugBase text
  let count := seen base
  (if count = 0 then base else base ++ '-' :: natDigits count,
   fun b => if b = base then count + 1 else seen b)

/-- One checklist item of the generated bundle. -/
structure ChecklistItem where
  id : Str
  label : Str
  defaultStatus : Str
deriving Repr, DecidableEq

/-- One section of the generated template. -/
structure TemplateSection where
  title : Str
  description : Str
  items : List ChecklistItem
deriving Repr, DecidableEq

/-- The inner loop of `build_bundle`: assign ids to the items of one section,
threading the shared slug-count state. -/
def buildSectionItems (texts : List Str) (seen : Str → Nat) :
    List ChecklistItem × (Str → Nat) :=
  match texts with
  | [] => ([], seen)
  | t :: ts =>
      let r := slugify t seen
      let rest := buildSectionItems ts r.2
      (⟨r.1, t, strOf "Not Started"⟩ :: rest.1, rest.2)

/-- The outer loop of `build_bundle`: convert every parsed section, threading
the shared slug-count state across sections. -/
def buildTemplateSections (secs : List PSection) (seen : Str → Nat) :
    List TemplateSection × (Str → Nat) :=
  match secs with
  | [] => ([], seen)
  | s :: ss =>
      let r := buildSectionItems s.items seen
      let rest := buildTemplateSections ss r.2
      (⟨s.title, [], r.1⟩ :: rest.1, rest.2)

/-- The `template.sections` part of `build_bundle(sections)`, starting from
the fresh `defaultdict(int)` slug-count state. -/
def build_bundle_sections (secs : List PSection) : List TemplateSection :=
  (buildTemplateSections secs (fun _ => 0)).1

/-- All item ids of the generated bundle, in document order. -/
def bundleIds (secs : List PSection) : List Str :=
  ((build_bundle_sections secs).map (fun s => s.items.map ChecklistItem.id)).flatten

/-- All item labels of the generated bundle, in document order. -/
def bundleLabels (secs : List PSection) : List Str :=
  ((build_bundle_sections secs).map (fun s => s.items.map ChecklistItem.label)).flatten

/-! ### JSON values

For the bundle/legacy JSON plumbing the scripts only ever test
`isinstance(v, dict)`, call `.get` on dicts, and copy values around, so JSON
values are modelled as dicts plus opaque scalars: a non-dict JSON value
(string, number, array, boolean, null) is `prim r` where `r` renders the
value, and a JSON object is `dict entries` with its key/value pairs in
insertion order (JSON decoding yields unique keys). -/

inductive JVal where
  | prim (r : Str)
  | dict (entries : List (Str × JVal))
deriving Repr

instance : Inhabited JVal := ⟨.dict []⟩

/-- First-occurrence lookup in a dict's entry list (Python `d.get(k)` for the
unique-keyed dicts produced by JSON decoding). -/
def entriesLookup (es : List (Str × JVal)) (k : Str) : Option JVal :=
  (es.find? (fun e => e.1 == k)).map Prod.snd

/-- Model of Python `base.update(other)` on unique-keyed dicts: keys already
in `base` keep their position but take the value from `other`; keys only in
`other` are appended in `other`'s order. -/
def dictUpdate (base other : List (Str × JVal)) : List (Str × JVal) :=
  base.map (fun e =>
    match entriesLookup other e.1 with
    | some v => (e.1, v)
    | none => e) ++
  other.filter (fun e => !(base.map Prod.fst).contains e.1)

/-! ### The legacy-defaults merge of `main` in the converter script -/

/-- The literal `dataset.defaults` dict of the generated bundle. -/
def GENERATED_DEFAULTS : List (Str × JVal) :=
  [(strOf "role", .prim (strOf "Private Gaming Host")),
   (strOf "department", .prim (strOf "Private Gaming Rooms")),
   (strOf "mentor", .prim (strOf "To Be Confirmed")),
   (strOf "context", .dict [(strOf "brand", .prim (strOf "PGR"))]),
   (strOf "statusOptions", .prim (strOf "[Not Started, In Progress, Complete]")),
   (strOf "defaultStatus", .prim (strOf "Not Started"))]

/-- The parts of the generated bundle dict that the legacy merge can see:
the template sections, the `dataset.defaults` dict, and the (empty)
`dataset.people` list. -/
structure Bundle where
  sections : List TemplateSection
  defaults : List (Str × JVal)
  people : List JVal
deriving Repr

/-- `build_bundle(sections)` restricted to the fields of `Bundle`. -/
def build_bundle (secs : List PSection) : Bundle :=
  { sections := build_bundle_sections secs
    defaults := GENERATED_DEFAULTS
    people := [] }

/-- The legacy-merge step of `main` in the converter script, acting on the
freshly generated bundle. `legacyFile` is `none` when
`LEGACY_BUNDLE_PATH.exists()` is false, `some none` when the file exists but
`json.loads` raises `JSONDecodeError`, and `some (some v)` when it decodes to
`v`. The `Except` error is the unhandled `AttributeError` raised when the
decoded value is a dict whose "dataset" entry is a non-dict (`.get` on a
non-dict). -/
def mergeLegacyDefaults (bundle : Bundle) (legacyFile : Option (Option JVal)) :
    Except Unit Bundle :=
  match legacyFile with
  | none => .ok bundle
  | some decoded =>
      let legacy : JVal := match decoded with
        | none => .dict []
        | some v => v
      let legacyDataset : JVal := match legacy with
        | .dict es => (entriesLookup es (strOf "dataset")).getD (.dict [])
        | _ => .dict []
      match legacyDataset with
      | .dict es2 =>
          match entriesLookup es2 (strOf "defaults") with
          | some (.dict legacyDefs) =>
              .ok { bundle with defaults := dictUpdate bundle.defaults legacyDefs }
          | _ => .ok bundle
      | _ => .error ()

/-! ### `load_bundle` of `generate_competency_workbook.py` -/

/-- The fatal outcomes of `load_bundle`, with the data their messages carry.
`fileNotFound path` is the `FileNotFoundError` naming the path;
`invalidJson path` is the `ValueError` naming the path; `missingKeys path ks`
is the `KeyError` naming the path and listing the missing required keys in
the sorted order produced by `sorted(missing_keys)`; `attrCrash` is the
unhandled `AttributeError` raised by `payload.keys()` when the decoded
top-level value is not a dict. -/
inductive LoadErr where
  | fileNotFound (path : Str)
  | invalidJson (path : Str)
  | missingKeys (path : Str) (missing : List Str)
  | attrCrash
deriving Repr, DecidableEq

/-- The required top-level keys, listed in sorted order (so that filtering it
reproduces `sorted({"dataset", "template"} - payload.keys())`). -/
def REQUIRED_KEYS : List Str := [strOf "dataset", strOf "template"]

/-- `load_bundle(path)` from the workbook script. `file` is `none` when
`path.exists()` is false, `some none` when the contents fail to JSON-decode,
and `some (some payload)` when they decode to `payload`. -/
def load_bundle (path : Str) (file : Option (Option JVal)) : Except LoadErr JVal :=
  match file with
  | none => .error (.fileNotFound path)
  | some none => .error (.invalidJson path)
  | some (some payload) =>
      match payload with
      | .dict es =>
          let missing := REQUIRED_KEYS.filter (fun k => !(es.map Prod.fst).contains k)
          if missing.isEmpty then .ok payload
          else .error (.missingKeys path missing)
      | _ => .error .attrCrash

/-! ### The per-person progress row of `build_progress_sheet` -/

/-- The status string that counts as completed. -/
def completeStr : Str := strOf "Complete"

/-- The f-string `f"(completed) / (len(items))"` of a section cell. -/
def sectionRatioStr (completed total : Nat) : Str :=
  natDigits completed ++ strOf " / " ++ natDigits total

/-- Round half to even of the non-negative rational `num / den` (`den`
positive): the tie-breaking rule shared by IEEE-754 round-to-nearest and
Python `round`. Used below both to place a rational on a binary64 grid and
to round an exactly represented binary64 value to an integer. -/
def roundHalfEven (num den : Nat) : Nat :=
  let q := num / den
  let r := num % den
  if 2 * r < den then q
  else if den < 2 * r then q + 1
  else if q % 2 = 0 then q else q + 1

/-- Fuel-driven bit length: `bitlenAux fuel n` is the number of binary
digits of `n` for any `fuel > log2 n`. -/
def bitlenAux : Nat → Nat → Nat
  | 0, _ => 0
  | fuel + 1, n => if n = 0 then 0 else bitlenAux fuel (n / 2) + 1

/-- The number of binary digits of `n` (`bitlen 0 = 0`). -/
def bitlen (n : Nat) : Nat := bitlenAux (n + 1) n

/-- Round the non-negative rational `a / b` to an IEEE-754 binary64 value
(round to nearest, ties to even; 53-bit significand; subnormal exponent
floor -1074), returned as a mantissa-exponent pair whose value is
`m * 2 ^ e`. Overflow to infinity is not modelled: the script only rounds
quotients `completed / total ≤ 1` and their exact products with 100, far
below the overflow threshold. `e2` is the floor of the base-2 logarithm of
`a / b`; `g` is the exponent of one unit in the last place of the result. -/
def floatRound (a b : Nat) : Nat × Int :=
  if a = 0 ∨ b = 0 then (0, 0)
  else
    let d : Int := (bitlen a : Int) - (bitlen b : Int)
    let e2 : Int := if b * 2 ^ d.toNat ≤ a * 2 ^ (-d).toNat then d else d - 1
    let g : Int := max (e2 - 52) (-1074)
    (roundHalfEven (a * 2 ^ (-g).toNat) (b * 2 ^ g.toNat), g)

/-- Binary64 multiplication of a float value by the exact constant `k`
(IEEE-754 multiplication is the correctly rounded exact product). -/
def floatMulNat (x : Nat × Int) (k : Nat) : Nat × Int :=
  floatRound (x.1 * k * 2 ^ x.2.toNat) (2 ^ (-x.2).toNat)

/-- Python `round` on a non-negative binary64 value: round half to even of
the exact value `m * 2 ^ e` of the float. -/
def pyRoundFloat (x : Nat × Int) : Nat :=
  roundHalfEven (x.1 * 2 ^ x.2.toNat) (2 ^ (-x.2).toNat)

/-- The per-section loop of a person's row in `build_progress_sheet`: returns
`(total_completed, total_items, section ratio cells)`. `comp` models
`person.get("competencies", {}).get(item_id, {}).get("status")`. -/
def progressTotals (sections : List TemplateSection) (comp : Str → Option Str) :
    Nat × Nat × List Str :=
  sections.foldl
    (fun acc sec =>
      let completed := sec.items.countP (fun it => comp it.id == some completeStr)
      (acc.1 + completed, acc.2.1 + sec.items.length,
       acc.2.2 ++ [sectionRatioStr completed sec.items.length]))
    (0, 0, [])

/-- `overall_percent` of a person's row:
`round((total_completed / total_items) * 100) if total_items else 0`, with
the float division and multiplication modelled as correctly rounded
binary64 operations. -/
def overallPercent (sections : List TemplateSection) (comp : Str → Option Str) : Nat :=
  let t := progressTotals sections comp
  if t.2.1 ≠ 0 then pyRoundFloat (floatMulNat (floatRound t.1 t.2.1) 100) else 0

/-- All item texts of the parsed sections, in document order (the order in
which `build_bundle` feeds them to `slugify`). -/
def allLabels (secs : List PSection) : List Str :=
  (secs.map PSection.items).flatten

/-- The id `slugify` assigns to an occurrence of base slug `base` whose
occurrence count so far is `count`. -/
def mkSlug (base : Str) (count : Nat) : Str :=
  if count = 0 then base else base ++ '-' :: natDigits count

/-- Sequential slug assignment over a list of labels, threading the shared
occurrence map exactly as `build_bundle` does. -/
def slugAll : List Str → (Str → Nat) → List Str
  | [], _ => []
  | t :: ts, seen => (slugify t seen).1 :: slugAll ts (slugify t seen).2

/-- The occurrence map left behind after slugifying a list of labels. -/
def slugStateAfter : List Str → (Str → Nat) → (Str → Nat)
  | [], s => s
  | t :: ts, s => slugStateAfter ts (slugify t s).2

/-- Decimal value of a digit string under an accumulator (left inverse of
`natDigits`, used to prove it injective). -/
def digitsValAux (a : Nat) (l : Str) : Nat :=
  l.foldl (fun acc c => 10 * acc + (c.toNat - 48)) a

/-- The spec's percent example: a single section of four items. -/
def demoSections : List TemplateSection :=
  [⟨strOf "Bars", [],
    [⟨strOf "pour-beer", strOf "Pour beer", strOf "Not Started"⟩,
     ⟨strOf "stock-fridge", strOf "Stock fridge", strOf "Not Started"⟩,
     ⟨strOf "clean-lines", strOf "Clean lines", strOf "Not Started"⟩,
     ⟨strOf "close-till", strOf "Close till", strOf "Not Started"⟩]⟩]

/-- The spec's percent example: three of the four items are "Complete". -/
def demoStatus : Str → Option Str := fun k =>
  if k = strOf "pour-beer" ∨ k = strOf "stock-fridge" ∨ k = strOf "clean-lines"
  then some completeStr else none

/-- A 200-item section exhibiting the float rounding of the percent cell. -/
def bigDemoSections : List TemplateSection :=
  [⟨strOf "Bars", [],
    (List.range 200).map (fun i => ⟨natDigits i, natDigits i, strOf "Not Started"⟩)⟩]

/-- A competency map marking the first 115 of those 200 items "Complete". -/
def bigDemoStatus : Str → Option Str := fun k =>
  if digitsValAux 0 k < 115 then some completeStr else none

/-! ## Theorems -/

theorem headerScan_eq_find (pats : List (Str × Str)) (u : Str) :
    headerScan pats u =
      match pats.find? (fun p => p.1.isPrefixOf u) with
      | some p => (true, some p.2)
      | none => (false, none) := by
  induction pats with
  | nil => rfl
  | cons p rest ih =>
      by_cases h : p.1.isPrefixOf u
      · simp [headerScan, h]
      · simp only [Bool.not_eq_true] at h
        simp [headerScan, h, ih]

/-- C4: `is_section_header` classifies a line as a heading exactly when the
uppercased line starts with one of the prefixes of `SECTION_PATTERNS`, the
returned title is the one paired with the first matching prefix in table
order (`List.find?` scans the table in order), and when no prefix matches the
result is `(false, none)`. -/
theorem C4_is_section_header_first_match (line : Str) :
    is_section_header line =
      (match SECTION_PATTERNS.find? (fun p => p.1.isPrefixOf (upperStr line)) with
       | some p => (true, some p.2)
       | none => (false, none)) ∧
    ((is_section_header line).1 = true ↔
      ∃ p ∈ SECTION_PATTERNS, p.1.isPrefixOf (upperStr line) = true) := by
  constructor
  · exact headerScan_eq_find SECTION_PATTERNS (upperStr line)
  · rw [is_section_header, headerScan_eq_find SECTION_PATTERNS (upperStr line)]
    rcases h : SECTION_PATTERNS.find? (fun p => p.1.isPrefixOf (upperStr line)) with _ | p
    · rw [h]
      simp only [Bool.false_eq_true, false_iff]
      rintro ⟨p, hp, hpre⟩
      rw [List.find?_eq_none] at h
      exact absurd hpre (by simpa using h p hp)
    · rw [h]
      have hsat := List.find?_some h
      have hm := List.mem_of_find?_eq_some h
      simp only [true_iff]
      exact ⟨p, hm, hsat⟩

theorem slugify_fst_eq (text : Str) (seen : Str → Nat) :
    (slugify text seen).1 =
      (if seen (slugBase text) = 0 then slugBase text
       else slugBase text ++ '-' :: natDigits (seen (slugBase text))) := rfl

theorem slugify_snd_eq (text : Str) (seen : Str → Nat) :
    (slugify text seen).2 =
      fun b => if b = slugBase text then seen (slugBase text) + 1 else seen b := rfl

theorem slugBase_ne_nil (text : Str) : slugBase text ≠ [] := by
  rw [slugBase]
  rcases h : pyStripChar '-' (collapseNonSlug false (lowerStr text)) with _ | ⟨c, cs⟩
  · simp [strOf]
  · simp

/-- C10: `slugify` never assigns an empty id: the base slug is never empty,
a label whose lowercased, collapsed, dash-stripped form is empty falls back
to the base "item", and that base is put through the same occurrence-count
suffixing as any other base. -/
theorem C10_slugify_never_empty (text : Str) (seen : Str → Nat) :
    (slugify text seen).1 ≠ [] ∧
    (pyStripChar '-' (collapseNonSlug false (lowerStr text)) = [] →
      slugBase text = strOf "item" ∧
      (slugify text seen).1 =
        (if seen (strOf "item") = 0 then strOf "item"
         else strOf "item" ++ '-' :: natDigits (seen (strOf "item")))) := by
  constructor
  · rw [slugify_fst_eq]
    have hb := slugBase_ne_nil text
    split_ifs
    · exact hb
    · intro hnil
      rcases List.append_eq_nil.mp hnil with ⟨h1, _⟩
      exact hb h1
  · intro h
    have hbase : slugBase text = strOf "item" := by
      rw [slugBase, h]
      rfl
    refine ⟨hbase, ?_⟩
    rw [slugify, hbase]

/-- Witness for C10 at a label with no alphanumeric characters. -/
theorem C10_witness :
    (slugify (strOf "!!!") (fun _ => 0)).1 ≠ [] ∧
      slugBase (strOf "!!!") = strOf "item" ∧
      (slugify (strOf "!!!") (fun _ => 0)).1 = strOf "item" := by
  refine ⟨(C10_slugify_never_empty (strOf "!!!") (fun _ => 0)).1, ?_, ?_⟩
  · exact ((C10_slugify_never_empty (strOf "!!!") (fun _ => 0)).2 (by decide)).1
  · have := ((C10_slugify_never_empty (strOf "!!!") (fun _ => 0)).2 (by decide)).2
    simpa using this

/-- C5: inside `parse_sections`, an empty input line always flushes the
buffer immediately, before the next line is processed (first conjunct: the
rest of the fold continues from the flushed state with an empty buffer, so a
following line can never be stitched to the old buffer); the flush joins the
buffered lines with single spaces, normalises, and appends the result to the
current section exactly when it is non-empty (second conjunct); and end of
input flushes any remaining buffer (third conjunct). -/
theorem C5_empty_line_flushes :
    (∀ (secs : List PSection) (buf : List Str) (rest : List Str),
      List.foldl parseStep (secs, buf) ([] :: rest) =
        List.foldl parseStep (flush_buffer secs buf, []) rest) ∧
    (∀ (secs : List PSection) (buf : List Str), secs ≠ [] → buf ≠ [] →
      flush_buffer secs buf =
        (if normalise_item_text (joinSpace buf) = [] then secs
         else appendToLast secs (normalise_item_text (joinSpace buf)))) ∧
    (∀ lines : List Str, parse_sections lines =
      flush_buffer (List.foldl parseStep ([], []) lines).1
        (List.foldl parseStep ([], []) lines).2) := by
  refine ⟨?_, ?_, ?_⟩
  · intro secs buf rest
    rw [List.foldl_cons]
    rfl
  · intro secs buf hs hb
    obtain ⟨s, ss, rfl⟩ := List.exists_cons_of_ne_nil hs
    obtain ⟨b, bs, rfl⟩ := List.exists_cons_of_ne_nil hb
    rw [flush_buffer]
    rcases h : normalise_item_text (joinSpace (b :: bs)) with _ | ⟨c, cs⟩ <;>
      simp [h]
  · intro lines
    rfl

/-- Witness for C5: a one-line buffer over a current section, flushed by an
empty line and appended as an item. -/
theorem C5_witness :
    List.foldl parseStep ([⟨strOf "Floor", []⟩], [strOf "Greet guests"]) [[]] =
      List.foldl parseStep
        (flush_buffer [⟨strOf "Floor", []⟩] [strOf "Greet guests"], []) [] ∧
    flush_buffer [⟨strOf "Floor", []⟩] [strOf "Greet guests"] =
      (if normalise_item_text (joinSpace [strOf "Greet guests"]) = []
       then [⟨strOf "Floor", []⟩]
       else appendToLast [⟨strOf "Floor", []⟩]
         (normalise_item_text (joinSpace [strOf "Greet guests"]))) :=
  ⟨C5_empty_line_flushes.1 _ _ _,
   C5_empty_line_flushes.2.1 _ _ (by decide) (by decide)⟩

/-- C3: for non-empty `previous` and `current`, `should_continue` returns
true exactly when one of the four spec conditions holds: `current` opens
with "(" or a lowercase first character; the last word of `previous`,
lowercased, is one of the closed continuation-suffix words; "between"
occurs among the words of `previous` and `current` has at most two words;
or `current` is a single word equal to its own uppercasing. -/
theorem C3_should_continue_iff (previous current : Str)
    (hp : previous ≠ []) (hc : current ≠ []) :
    should_continue previous current = true ↔
      (current.headD ' ' = '(' ∨ (current.headD ' ').isLower = true ∨
       (pySplit previous ≠ [] ∧
         lowerStr ((pySplit previous).getLastD []) ∈ CONTINUATION_SUFFIXES) ∨
       (strOf "between" ∈ (pySplit previous).map lowerStr ∧
         (pySplit current).length ≤ 2) ∨
       ((pySplit current).length = 1 ∧ upperStr current = current)) := by
  obtain ⟨p, ps, rfl⟩ := List.exists_cons_of_ne_nil hp
  obtain ⟨c, cs, rfl⟩ := List.exists_cons_of_ne_nil hc
  simp only [should_continue, List.headD_cons]
  split_ifs with h1 h2 h3 h4
  · simp only [true_iff]
    rcases Bool.or_eq_true _ _ |>.mp h1 with h | h
    · exact Or.inl (by simpa using h)
    · exact Or.inr (Or.inl h)
  · simp only [true_iff]
    rcases Bool.and_eq_true _ _ |>.mp h2 with ⟨hne, hmem⟩
    refine Or.inr (Or.inr (Or.inl ⟨?_, ?_⟩))
    · simpa using hne
    · simpa using hmem
  · simp only [true_iff]
    rcases Bool.and_eq_true _ _ |>.mp h3 with ⟨hmem, hlen⟩
    refine Or.inr (Or.inr (Or.inr (Or.inl ⟨?_, ?_⟩)))
    · simpa using hmem
    · simpa using hlen
  · simp only [true_iff]
    rcases Bool.and_eq_true _ _ |>.mp h4 with ⟨hlen, hupper⟩
    refine Or.inr (Or.inr (Or.inr (Or.inr ⟨?_, ?_⟩)))
    · simpa using hlen
    · simpa using hupper
  · simp only [Bool.false_eq_true, false_iff]
    rintro (h | h | ⟨hne, hmem⟩ | ⟨hmem, hlen⟩ | ⟨hlen, hupper⟩)
    · exact h1 (by simp [h])
    · exact h1 (by simp [h])
    · exact h2 (Bool.and_eq_true _ _ |>.mpr
        ⟨by simpa using hne, by simpa using hmem⟩)
    · exact h3 (Bool.and_eq_true _ _ |>.mpr
        ⟨by simpa using hmem, by simpa using hlen⟩)
    · exact h4 (Bool.and_eq_true _ _ |>.mpr
        ⟨by simpa using hlen, by simpa using hupper⟩)

/-- Witness for C3: a trailing "and" on the buffered line continues into the
next line. -/
theorem C3_witness :
    should_continue (strOf "Set up the bar and") (strOf "stock the fridge") = true ↔
      ((strOf "stock the fridge").headD ' ' = '(' ∨
       ((strOf "stock the fridge").headD ' ').isLower = true ∨
       (pySplit (strOf "Set up the bar and") ≠ [] ∧
         lowerStr ((pySplit (strOf "Set up the bar and")).getLastD [])
           ∈ CONTINUATION_SUFFIXES) ∨
       (strOf "between" ∈ (pySplit (strOf "Set up the bar and")).map lowerStr ∧
         (pySplit (strOf "stock the fridge")).length ≤ 2) ∨
       ((pySplit (strOf "stock the fridge")).length = 1 ∧
         upperStr (strOf "stock the fridge") = strOf "stock the fridge")) :=
  C3_should_continue_iff _ _ (by decide) (by decide)

/-- Counterexample to C7 as stated: a bundle file whose contents are valid
JSON but not a JSON object (here a JSON array, modelled as a non-dict value)
makes `load_bundle` raise an unhandled `AttributeError` from
`payload.keys()`, not the `KeyError` naming the path and the sorted missing
keys that the claim specifies for a payload lacking the required keys. -/
theorem C7_counterexample :
    load_bundle (strOf "bundle.json") (some (some (.prim (strOf "[]")))) =
      .error .attrCrash ∧
    LoadErr.attrCrash ≠ LoadErr.fileNotFound (strOf "bundle.json") ∧
    LoadErr.attrCrash ≠ LoadErr.invalidJson (strOf "bundle.json") ∧
    LoadErr.attrCrash ≠
      LoadErr.missingKeys (strOf "bundle.json") [strOf "dataset", strOf "template"] :=
  ⟨rfl, by decide, by decide, by decide⟩

/-- C7 (amended to payloads whose top level is a JSON object): `load_bundle`
fails with `FileNotFoundError` exactly when the file is absent, with
`ValueError` naming the path exactly when the contents fail to JSON-decode,
and, for a decoded JSON object, fails with a `KeyError` naming the path and
the missing required keys (filtering the sorted `REQUIRED_KEYS` list
reproduces `sorted(missing_keys)`) when one of "dataset"/"template" is
absent, otherwise returns the parsed payload unchanged; a decoded non-object
payload raises an unhandled `AttributeError` instead. -/
theorem C7_load_bundle_amended (path : Str) (file : Option (Option JVal)) :
    (load_bundle path file = .error (.fileNotFound path) ↔ file = none) ∧
    (load_bundle path file = .error (.invalidJson path) ↔ file = some none) ∧
    (∀ es, file = some (some (JVal.dict es)) →
      (let missing := REQUIRED_KEYS.filter (fun k => !(es.map Prod.fst).contains k)
       if missing = [] then load_bundle path file = .ok (.dict es)
       else load_bundle path file = .error (.missingKeys path missing))) ∧
    (∀ r, file = some (some (JVal.prim r)) →
      load_bundle path file = .error .attrCrash) := by
  refine ⟨?_, ?_, ?_, ?_⟩
  · rcases file with _ | f
    · simp [load_bundle]
    · rcases f with _ | v
      · simp [load_bundle]
      · rcases v with r | es
        · simp [load_bundle]
        · simp only [load_bundle]
          by_cases h : (REQUIRED_KEYS.filter
              (fun k => !(es.map Prod.fst).contains k)).isEmpty = true
          · rw [if_pos h]
            simp
          · rw [if_neg h]
            simp
  · rcases file with _ | f
    · simp [load_bundle]
    · rcases f with _ | v
      · simp [load_bundle]
      · rcases v with r | es
        · simp [load_bundle]
        · simp only [load_bundle]
          by_cases h : (REQUIRED_KEYS.filter
              (fun k => !(es.map Prod.fst).contains k)).isEmpty = true
          · rw [if_pos h]
            simp
          · rw [if_neg h]
            simp
  · rintro es rfl
    simp only [load_bundle]
    by_cases h : (REQUIRED_KEYS.filter
        (fun k => !(es.map Prod.fst).contains k)) = []
    · rw [if_pos h, if_pos (show (REQUIRED_KEYS.filter
        (fun k => !(es.map Prod.fst).contains k)).isEmpty = true from by rw [h]; rfl)]
    · rw [if_neg h, if_neg (by simpa [List.isEmpty_iff] using h)]
  · rintro r rfl
    rfl

/-- Witness for C7 at concrete bundles: both required keys present returns
the payload; a payload with only "template" fails naming the missing
"dataset". -/
theorem C7_witness :
    load_bundle (strOf "p")
      (some (some (JVal.dict
        [(strOf "dataset", .dict []), (strOf "template", .dict [])]))) =
      .ok (.dict [(strOf "dataset", .dict []), (strOf "template", .dict [])]) ∧
    load_bundle (strOf "p")
      (some (some (JVal.dict [(strOf "template", .dict [])]))) =
      .error (.missingKeys (strOf "p") [strOf "dataset"]) := by
  constructor
  · have h := (C7_load_bundle_amended (strOf "p")
      (some (some (JVal.dict
        [(strOf "dataset", .dict []), (strOf "template", .dict [])])))).2.2.1
      [(strOf "dataset", .dict []), (strOf "template", .dict [])] rfl
    simp only [] at h
    rw [show (REQUIRED_KEYS.filter (fun k =>
        !(([(strOf "dataset", JVal.dict []),
            (strOf "template", JVal.dict [])]).map Prod.fst).contains k)) = []
      from by decide] at h
    rwa [if_pos rfl] at h
  · have h := (C7_load_bundle_amended (strOf "p")
      (some (some (JVal.dict [(strOf "template", .dict [])])))).2.2.1
      [(strOf "template", .dict [])] rfl
    simp only [] at h
    rw [show (REQUIRED_KEYS.filter (fun k =>
        !(([(strOf "template", JVal.dict [])]).map Prod.fst).contains k)) =
        [strOf "dataset"]
      from by decide] at h
    rwa [if_neg (by decide)] at h

theorem entriesLookup_cons (e : Str × JVal) (rest : List (Str × JVal)) (k : Str) :
    entriesLookup (e :: rest) k =
      if e.1 == k then some e.2 else entriesLookup rest k := by
  rw [entriesLookup, List.find?_cons]
  cases h : (e.1 == k) <;> simp [h, entriesLookup]

theorem entriesLookup_map_upd (base other : List (Str × JVal)) (k : Str) :
    entriesLookup (base.map (fun e =>
      match entriesLookup other e.1 with
      | some v => (e.1, v)
      | none => e)) k =
      match entriesLookup base k with
      | some w => some ((entriesLookup other k).getD w)
      | none => none := by
  induction base with
  | nil => rfl
  | cons e rest ih =>
      rw [List.map_cons, entriesLookup_cons]
      by_cases h : (e.1 == k) = true
      · have hek : e.1 = k := by simpa using h
        subst hek
        rcases ho : entriesLookup other e.1 with _ | v <;>
          simp [entriesLookup_cons]
      · have hfst : (match entriesLookup other e.1 with
            | some v => (e.1, v)
            | none => e).1 = e.1 := by
          rcases ho : entriesLookup other e.1 with _ | v <;> simp
        rw [hfst] at *
        rw [entriesLookup_cons, if_neg h, if_neg h, ih]

theorem entriesLookup_filter_keys (other : List (Str × JVal)) (bks : List Str)
    (k : Str) (hk : bks.contains k = false) :
    entriesLookup (other.filter (fun e => !bks.contains e.1)) k =
      entriesLookup other k := by
  induction other with
  | nil => rfl
  | cons e rest ih =>
      rw [List.filter_cons]
      by_cases hf : (!bks.contains e.1) = true
      · rw [if_pos hf, entriesLookup_cons, entriesLookup_cons]
        by_cases h : (e.1 == k) = true
        · rw [if_pos h, if_pos h]
        · rw [if_neg h, if_neg h, ih]
      · rw [if_neg hf, entriesLookup_cons]
        have h : (e.1 == k) = false := by
          rw [Bool.eq_false_iff]
          intro hbeq
          have hek : e.1 = k := by simpa using hbeq
          rw [hek] at hf
          exact hf (by rw [hk]; rfl)
        rw [if_neg (by rw [h]; exact fun hc => nomatch hc), ih]

theorem entriesLookup_append (l1 l2 : List (Str × JVal)) (k : Str) :
    entriesLookup (l1 ++ l2) k =
      match entriesLookup l1 k with
      | some v => some v
      | none => entriesLookup l2 k := by
  induction l1 with
  | nil => rfl
  | cons e rest ih =>
      rw [List.cons_append, entriesLookup_cons, entriesLookup_cons]
      by_cases h : (e.1 == k) = true
      · rw [if_pos h, if_pos h]
      · rw [if_neg h, if_neg h, ih]

theorem entriesLookup_eq_none_contains (base : List (Str × JVal)) (k : Str)
    (hb : entriesLookup base k = none) :
    ((base.map Prod.fst).contains k) = false := by
  rw [entriesLookup, Option.map_eq_none', List.find?_eq_none] at hb
  rw [Bool.eq_false_iff]
  intro hcon
  have hmem : k ∈ base.map Prod.fst := List.mem_of_elem_eq_true hcon
  rcases List.mem_map.mp hmem with ⟨e, he, hek⟩
  have := hb e he
  simp [hek] at this

theorem dictUpdate_lookup (base other : List (Str × JVal)) (k : Str) :
    entriesLookup (dictUpdate base other) k =
      match entriesLookup base k with
      | some w => some ((entriesLookup other k).getD w)
      | none => entriesLookup other k := by
  rw [dictUpdate, entriesLookup_append]
  rcases hb : entriesLookup base k with _ | w
  · rw [entriesLookup_map_upd, hb]
    exact entriesLookup_filter_keys other _ k
      (entriesLookup_eq_none_contains base k hb)
  · rw [entriesLookup_map_upd, hb]

/-- C8: the legacy-defaults merge of the converter's `main`. A missing legacy
file, or one whose contents fail to JSON-decode, leaves the generated bundle
unchanged (the decode failure is silently treated as an empty legacy dict);
when the legacy file decodes to a dict whose `dataset.defaults` is a dict,
those defaults are merged into the generated `dataset.defaults` — a key held
by both takes the legacy value, a key held by one keeps its value — and the
sections and people of the generated bundle are untouched. -/
theorem C8_legacy_merge (b : Bundle) :
    (mergeLegacyDefaults b none = .ok b) ∧
    (mergeLegacyDefaults b (some none) = .ok b) ∧
    (∀ es ds ld,
      entriesLookup es (strOf "dataset") = some (.dict ds) →
      entriesLookup ds (strOf "defaults") = some (.dict ld) →
      mergeLegacyDefaults b (some (some (.dict es))) =
        .ok { b with defaults := dictUpdate b.defaults ld }) ∧
    (∀ gen legacy k,
      entriesLookup (dictUpdate gen legacy) k =
        match entriesLookup gen k with
        | some w => some ((entriesLookup legacy k).getD w)
        | none => entriesLookup legacy k) := by
  refine ⟨rfl, rfl, ?_, fun gen legacy k => dictUpdate_lookup gen legacy k⟩
  intro es ds ld h1 h2
  simp only [mergeLegacyDefaults, h1, Option.getD_some, h2]

/-- Witness for C8: one legacy default ("mentor") merged over the generated
defaults of an empty bundle. -/
theorem C8_witness :
    mergeLegacyDefaults (build_bundle []) (some (some (.dict
      [(strOf "dataset", .dict [(strOf "defaults", .dict
        [(strOf "mentor", .prim (strOf "Sam"))])])]))) =
      .ok ⟨[], dictUpdate GENERATED_DEFAULTS
          [(strOf "mentor", .prim (strOf "Sam"))], []⟩ :=
  (C8_legacy_merge (build_bundle [])).2.2.1 _ _ _ rfl rfl

theorem progressTotals_foldl (sections : List TemplateSection)
    (comp : Str → Option Str) (a b : Nat) (rs : List Str) :
    List.foldl
      (fun acc sec =>
        let completed := sec.items.countP (fun it => comp it.id == some completeStr)
        (acc.1 + completed, acc.2.1 + sec.items.length,
         acc.2.2 ++ [sectionRatioStr completed sec.items.length]))
      (a, b, rs) sections =
      (a + ((sections.map TemplateSection.items).flatten).countP
          (fun it => comp it.id == some completeStr),
       b + ((sections.map TemplateSection.items).flatten).length,
       rs ++ sections.map (fun sec =>
         sectionRatioStr
           (sec.items.countP (fun it => comp it.id == some completeStr))
           sec.items.length)) := by
  induction sections generalizing a b rs with
  | nil => simp
  | cons sec ss ih =>
      rw [List.foldl_cons]
      rw [ih]
      simp [List.countP_append, Nat.add_assoc, List.map_cons]

set_option maxRecDepth 4000 in
/-- Counterexample to C6 as stated: with 115 of 200 items "Complete" the
program computes `round((115 / 200) * 100)` in binary64 floats — `115 / 200`
rounds to a double just below 0.575, whose product with 100 is the double
just below 57.5 — and yields 57, while the claim's formula
`round(100 * completed / total)` gives `round(57.5) = 58`, both as the exact
rational (round half to even) and as the Python float expression
`round(100 * 115 / 200)` (`11500 / 200` is exactly 57.5). -/
theorem C6_counterexample :
    overallPercent bigDemoSections bigDemoStatus = 57 ∧
    roundHalfEven (100 * 115) 200 = 58 ∧
    pyRoundFloat (floatRound (100 * 115) 200) = 58 ∧
    (57 : Nat) ≠ 58 :=
  ⟨by decide, by decide, by decide, by decide⟩

/-- C6 (amended): a person's overall completion percentage is Python `round`
of the binary64 value `(completed / total) * 100` — the correctly rounded
float division of `completed` by `total`, exactly multiplied by 100 and
rounded back to binary64, then rounded half-to-even to an integer — where
`completed` counts the person's items whose status is "Complete" across all
sections and `total` counts all items; it is 0 when there are no items.
This differs from round of the exact rational `100 * completed / total` at
inputs such as 115 of 200. In particular a person with 3 of 4 items
"Complete" in their only section gets the section ratio cell "3 / 4" and an
overall percentage of 75. -/
theorem C6_progress_percent_amended (sections : List TemplateSection)
    (comp : Str → Option Str) :
    (overallPercent sections comp =
      if ((sections.map TemplateSection.items).flatten).length = 0 then 0
      else pyRoundFloat (floatMulNat
        (floatRound
          (((sections.map TemplateSection.items).flatten).countP
            (fun it => comp it.id == some completeStr))
          ((sections.map TemplateSection.items).flatten).length)
        100)) ∧
    progressTotals demoSections demoStatus = (3, 4, [strOf "3 / 4"]) ∧
    overallPercent demoSections demoStatus = 75 := by
  refine ⟨?_, by decide, by decide⟩
  rw [overallPercent, progressTotals, progressTotals_foldl]
  by_cases h : ((sections.map TemplateSection.items).flatten).length = 0 <;>
    simp [h]

theorem appendToLast_titles (secs : List PSection) (t : Str) :
    (appendToLast secs t).map PSection.title = secs.map PSection.title := by
  induction secs with
  | nil => rfl
  | cons s rest ih =>
      cases rest with
      | nil => rfl
      | cons r rs =>
          rw [appendToLast, List.map_cons, List.map_cons, ih]

theorem flush_buffer_titles (secs : List PSection) (buf : List Str) :
    (flush_buffer secs buf).map PSection.title = secs.map PSection.title := by
  simp only [flush_buffer]
  by_cases h1 : (secs.isEmpty || buf.isEmpty) = true
  · rw [if_pos h1]
  · rw [if_neg h1]
    by_cases h2 : (normalise_item_text (joinSpace buf)).isEmpty = true
    · rw [if_pos h2]
    · rw [if_neg h2, appendToLast_titles]

theorem headerScan_true_mem (pats : List (Str × Str)) (u : Str) (t : Option Str)
    (h : headerScan pats u = (true, t)) :
    ∃ ttl ∈ pats.map Prod.snd, t = some ttl := by
  induction pats with
  | nil => exact absurd h (by rw [headerScan]; intro hh; cases hh)
  | cons p rest ih =>
      rw [headerScan] at h
      by_cases hp : p.1.isPrefixOf u = true
      · rw [if_pos hp] at h
        injection h with h1 h2
        exact ⟨p.2, by simp, h2.symm⟩
      · rw [if_neg hp] at h
        rcases ih h with ⟨ttl, hmem, ht⟩
        exact ⟨ttl, by simp [List.mem_map] at hmem ⊢; tauto, ht⟩

theorem parseStep_empty_line (secs : List PSection) (buf : List Str) :
    parseStep (secs, buf) [] = (flush_buffer secs buf, []) := rfl

theorem parseStep_header (secs : List PSection) (buf : List Str) (line : Str)
    (t : Option Str) (hl : line ≠ [])
    (hh : is_section_header line = (true, t)) :
    parseStep (secs, buf) line =
      (if ((flush_buffer secs buf).getLast?.map PSection.title == t) = true
       then (flush_buffer secs buf, [])
       else (flush_buffer secs buf ++ [⟨pyOrStr t line, []⟩], [])) := by
  simp only [parseStep]
  rw [if_neg (by simpa [List.isEmpty_iff] using hl), hh]

theorem parseStep_nonheader (secs : List PSection) (buf : List Str) (line : Str)
    (hl : line ≠ []) (hh : (is_section_header line).1 = false) :
    parseStep (secs, buf) line =
      (if (!(pySplit (upperStr line)).isEmpty &&
           (pySplit (upperStr line)).all (fun t => SKIP_TOKENS.contains t)) = true
       then (secs, buf)
       else if (normalise_item_text line).isEmpty = true
       then (flush_buffer secs buf, [])
       else if (!buf.isEmpty &&
           should_continue (buf.getLastD []) (normalise_item_text line)) = true
       then (secs, buf ++ [normalise_item_text line])
       else (flush_buffer secs buf, [normalise_item_text line])) := by
  simp only [parseStep]
  rw [if_neg (by simpa [List.isEmpty_iff] using hl)]
  rcases hhh : is_section_header line with ⟨b, topt⟩
  rw [hhh] at hh
  simp only at hh
  subst hh
  rfl

theorem parseStep_titles_chain (st : List PSection × List Str) (line : Str)
    (h : (st.1.map PSection.title).Chain' (· ≠ ·)) :
    (((parseStep st line).1).map PSection.title).Chain' (· ≠ ·) := by
  obtain ⟨secs, buf⟩ := st
  rcases hline : line with _ | ⟨c, cs⟩
  · rw [parseStep_empty_line, flush_buffer_titles]
    exact h
  · rw [← hline]
    have hlne : line ≠ [] := by rw [hline]; exact List.cons_ne_nil c cs
    rcases hh : is_section_header line with ⟨b, topt⟩
    cases b
    · rw [parseStep_nonheader secs buf line hlne (by rw [hh])]
      by_cases hskip : (!(pySplit (upperStr line)).isEmpty &&
          (pySplit (upperStr line)).all (fun t => SKIP_TOKENS.contains t)) = true
      · rw [if_pos hskip]
        exact h
      · rw [if_neg hskip]
        by_cases hcl : (normalise_item_text line).isEmpty = true
        · rw [if_pos hcl, flush_buffer_titles]
          exact h
        · rw [if_neg hcl]
          by_cases hcont : (!buf.isEmpty &&
              should_continue (buf.getLastD []) (normalise_item_text line)) = true
          · rw [if_pos hcont]
            exact h
          · rw [if_neg hcont, flush_buffer_titles]
            exact h
    · obtain ⟨ttl, hmem, rfl⟩ :=
        headerScan_true_mem SECTION_PATTERNS (upperStr line) topt hh
      rw [parseStep_header secs buf line (some ttl) hlne hh]
      by_cases hc : ((flush_buffer secs buf).getLast?.map PSection.title ==
          some ttl) = true
      · rw [if_pos hc, flush_buffer_titles]
        exact h
      · rw [if_neg hc]
        simp only [List.map_append]
        have httl : ttl ≠ [] := by
          have hall : ∀ x ∈ SECTION_PATTERNS.map Prod.snd, x ≠ [] := by decide
          exact hall ttl hmem
        have hpy : pyOrStr (some ttl) line = ttl := by
          rw [pyOrStr]
          rw [if_neg (by simpa [List.isEmpty_iff] using httl)]
        rw [hpy]
        refine List.Chain'.append ?_ ?_ ?_
        · rw [flush_buffer_titles]
          exact h
        · exact List.chain'_singleton _
        · intro x hx y hy
          simp only [List.map_cons, List.map_nil, List.head?_cons,
            Option.mem_def, Option.some.injEq] at hy
          subst hy
          rw [List.getLast?_map] at hx
          intro hxy
          subst hxy
          have hlast : (flush_buffer secs buf).getLast?.map PSection.title =
              some x := Option.mem_def.mp hx
          exact hc (by rw [hlast]; exact beq_self_eq_true _)

theorem foldl_parseStep_titles_chain (lines : List Str)
    (st : List PSection × List Str)
    (h : (st.1.map PSection.title).Chain' (· ≠ ·)) :
    (((lines.foldl parseStep st).1).map PSection.title).Chain' (· ≠ ·) := by
  induction lines generalizing st with
  | nil => exact h
  | cons l ls ih =>
      rw [List.foldl_cons]
      exact ih _ (parseStep_titles_chain st l h)

/-- Counterexample to C2 as stated: a heading repeated non-consecutively
("STARTING SHIFT", then "BARS", then "STARTING SHIFT" again) creates a second
section with the already-produced title "Starting Shift" instead of
appending to the existing one — the code only compares against the current
(last) section's title. -/
theorem C2_counterexample :
    parse_sections [strOf "STARTING SHIFT", strOf "BARS", strOf "STARTING SHIFT"] =
      [⟨strOf "Starting Shift", []⟩, ⟨strOf "Bars", []⟩,
       ⟨strOf "Starting Shift", []⟩] ∧
    ¬ ((parse_sections [strOf "STARTING SHIFT", strOf "BARS",
        strOf "STARTING SHIFT"]).map PSection.title).Nodup :=
  ⟨by decide, by decide⟩

/-- C2 (amended): `parse_sections` never gives two adjacent sections the same
title — a heading whose canonical title equals the current (last) section's
title keeps appending to that section instead of opening a new one (second
conjunct) — but a heading repeating the title of an earlier, non-current
section does start a new, duplicate-titled section. -/
theorem C2_no_adjacent_duplicate_titles (lines : List Str) :
    (((parse_sections lines).map PSection.title).Chain' (· ≠ ·)) ∧
    (∀ (secs : List PSection) (buf : List Str) (line : Str) (t : Str),
      line ≠ [] →
      is_section_header line = (true, some t) →
      (flush_buffer secs buf).getLast?.map PSection.title = some t →
      parseStep (secs, buf) line = (flush_buffer secs buf, [])) := by
  constructor
  · rw [parse_sections]
    rw [flush_buffer_titles]
    exact foldl_parseStep_titles_chain lines ([], []) (by simp)
  · intro secs buf line t hline hheader hlast
    rw [parseStep_header secs buf line (some t) hline hheader]
    rw [if_pos (by rw [hlast]; exact beq_self_eq_true _)]

/-- Witness for C2: the heading line "BARS" repeated while the current
section is already "Bars" leaves the section list unchanged. -/
theorem C2_witness :
    parseStep ([⟨strOf "Bars", []⟩], []) (strOf "BARS") =
      (flush_buffer [⟨strOf "Bars", []⟩] [], []) :=
  (C2_no_adjacent_duplicate_titles []).2 [⟨strOf "Bars", []⟩] [] (strOf "BARS")
    (strOf "Bars") (by decide) (by decide) (by decide)

theorem appendToLast_items_nonempty (secs : List PSection) (t : Str)
    (ht : t ≠ []) (h : ∀ sec ∈ secs, ∀ it ∈ sec.items, it ≠ []) :
    ∀ sec ∈ appendToLast secs t, ∀ it ∈ sec.items, it ≠ [] := by
  induction secs with
  | nil =>
      intro sec hsec
      cases hsec
  | cons s rest ih =>
      cases rest with
      | nil =>
          intro sec hsec it hit
          simp only [appendToLast, List.mem_singleton] at hsec
          subst hsec
          simp only [List.mem_append, List.mem_singleton] at hit
          rcases hit with hit | rfl
          · exact h s (by simp) it hit
          · exact ht
      | cons r rs =>
          intro sec hsec it hit
          rw [appendToLast] at hsec
          rcases List.mem_cons.mp hsec with rfl | hsec2
          · exact h sec (by simp) it hit
          · exact ih (fun sec2 hs2 => h sec2 (List.mem_cons_of_mem _ hs2))
              sec hsec2 it hit

theorem flush_buffer_items_nonempty (secs : List PSection) (buf : List Str)
    (h : ∀ sec ∈ secs, ∀ it ∈ sec.items, it ≠ []) :
    ∀ sec ∈ flush_buffer secs buf, ∀ it ∈ sec.items, it ≠ [] := by
  simp only [flush_buffer]
  by_cases h1 : (secs.isEmpty || buf.isEmpty) = true
  · rw [if_pos h1]
    exact h
  · rw [if_neg h1]
    by_cases h2 : (normalise_item_text (joinSpace buf)).isEmpty = true
    · rw [if_pos h2]
      exact h
    · rw [if_neg h2]
      exact appendToLast_items_nonempty secs _
        (by simpa [List.isEmpty_iff] using h2) h

theorem parseStep_items_nonempty (st : List PSection × List Str) (line : Str)
    (h : ∀ sec ∈ st.1, ∀ it ∈ sec.items, it ≠ []) :
    ∀ sec ∈ (parseStep st line).1, ∀ it ∈ sec.items, it ≠ [] := by
  obtain ⟨secs, buf⟩ := st
  rcases hline : line with _ | ⟨c, cs⟩
  · rw [parseStep_empty_line]
    exact flush_buffer_items_nonempty secs buf h
  · rw [← hline]
    have hlne : line ≠ [] := by rw [hline]; exact List.cons_ne_nil c cs
    rcases hh : is_section_header line with ⟨b, topt⟩
    cases b
    · rw [parseStep_nonheader secs buf line hlne (by rw [hh])]
      by_cases hskip : (!(pySplit (upperStr line)).isEmpty &&
          (pySplit (upperStr line)).all (fun t => SKIP_TOKENS.contains t)) = true
      · rw [if_pos hskip]
        exact h
      · rw [if_neg hskip]
        by_cases hcl : (normalise_item_text line).isEmpty = true
        · rw [if_pos hcl]
          exact flush_buffer_items_nonempty secs buf h
        · rw [if_neg hcl]
          by_cases hcont : (!buf.isEmpty &&
              should_continue (buf.getLastD []) (normalise_item_text line)) = true
          · rw [if_pos hcont]
            exact h
          · rw [if_neg hcont]
            exact flush_buffer_items_nonempty secs buf h
    · rw [parseStep_header secs buf line topt hlne hh]
      by_cases hc : ((flush_buffer secs buf).getLast?.map PSection.title ==
          topt) = true
      · rw [if_pos hc]
        exact flush_buffer_items_nonempty secs buf h
      · rw [if_neg hc]
        intro sec hsec it hit
        rcases List.mem_append.mp hsec with hsec2 | hsec2
        · exact flush_buffer_items_nonempty secs buf h sec hsec2 it hit
        · rcases List.mem_singleton.mp hsec2 with rfl
          cases hit

theorem foldl_parseStep_items_nonempty (lines : List Str)
    (st : List PSection × List Str)
    (h : ∀ sec ∈ st.1, ∀ it ∈ sec.items, it ≠ []) :
    ∀ sec ∈ (lines.foldl parseStep st).1, ∀ it ∈ sec.items, it ≠ [] := by
  induction lines generalizing st with
  | nil => exact h
  | cons l ls ih =>
      rw [List.foldl_cons]
      exact ih _ (parseStep_items_nonempty st l h)

theorem buildSectionItems_labels (texts : List Str) (seen : Str → Nat) :
    ((buildSectionItems texts seen).1).map ChecklistItem.label = texts := by
  induction texts generalizing seen with
  | nil => rfl
  | cons t ts ih =>
      rw [buildSectionItems]
      simp only [List.map_cons]
      rw [ih]

theorem bundleLabels_eq (secs : List PSection) :
    bundleLabels secs = (secs.map PSection.items).flatten := by
  rw [bundleLabels, build_bundle_sections]
  generalize (fun _ : Str => 0) = seen
  induction secs generalizing seen with
  | nil => rfl
  | cons s ss ih =>
      rw [buildTemplateSections]
      simp only [List.map_cons, List.flatten_cons]
      rw [buildSectionItems_labels, ih]

/-- C9: every item string of every section produced by `parse_sections` is
non-empty — the flush step appends the joined, normalised buffer text only
when it is non-empty, and a line normalising to the empty string is flushed
away rather than buffered — and consequently every `ChecklistItem.label` of
the bundle built from the parsed sections is non-empty. -/
theorem C9_parse_items_nonempty (lines : List Str) :
    (∀ sec ∈ parse_sections lines, ∀ it ∈ sec.items, it ≠ []) ∧
    (∀ lab ∈ bundleLabels (parse_sections lines), lab ≠ []) := by
  have hinv : ∀ sec ∈ parse_sections lines, ∀ it ∈ sec.items, it ≠ [] := by
    rw [parse_sections]
    exact flush_buffer_items_nonempty _ _
      (foldl_parseStep_items_nonempty lines ([], []) (by intro sec hsec; cases hsec))
  refine ⟨hinv, ?_⟩
  intro lab hlab
  rw [bundleLabels_eq] at hlab
  rcases List.mem_flatten.mp hlab with ⟨l, hl, hlab2⟩
  rcases List.mem_map.mp hl with ⟨sec, hsec, rfl⟩
  exact hinv sec hsec lab hlab2

/-- Witness for C9 on the two-line input "FLOOR" / "Greet guests". -/
theorem C9_witness : strOf "Greet guests" ≠ [] :=
  (C9_parse_items_nonempty [strOf "FLOOR", strOf "Greet guests"]).1
    ⟨strOf "Floor", [strOf "Greet guests"]⟩ (by decide)
    (strOf "Greet guests") (by decide)

theorem natDigitsAux_congr (n : Nat) : ∀ f g : Nat, n < f → n < g →
    natDigitsAux f n = natDigitsAux g n := by
  induction n using Nat.strong_induction_on with
  | _ n ih =>
      intro f g hf hg
      match f, g with
      | fp + 1, gp + 1 =>
          rw [natDigitsAux, natDigitsAux]
          by_cases h10 : n < 10
          · rw [if_pos h10, if_pos h10]
          · rw [if_neg h10, if_neg h10]
            have hdiv : n / 10 < n := Nat.div_lt_self (by omega) (by omega)
            rw [ih (n / 10) hdiv fp gp (by omega) (by omega)]

theorem natDigits_unfold (n : Nat) :
    natDigits n =
      if n < 10 then [digitChar n]
      else natDigits (n / 10) ++ [digitChar (n % 10)] := by
  rw [natDigits, natDigitsAux]
  by_cases h10 : n < 10
  · rw [if_pos h10, if_pos h10]
  · rw [if_neg h10, if_neg h10, natDigits]
    have hdiv : n / 10 < n := Nat.div_lt_self (by omega) (by omega)
    rw [natDigitsAux_congr (n / 10) n (n / 10 + 1) hdiv (by omega)]

theorem digitsValAux_natDigits (n : Nat) : ∀ a : Nat,
    digitsValAux a (natDigits n) = a * 10 ^ (natDigits n).length + n := by
  induction n using Nat.strong_induction_on with
  | _ n ih =>
      intro a
      rw [natDigits_unfold]
      by_cases h10 : n < 10
      · rw [if_pos h10]
        have hd : (digitChar n).toNat - 48 = n := by
          have hall : ∀ d < 10, (digitChar d).toNat - 48 = d := by decide
          exact hall n h10
        simp [digitsValAux, hd]
        omega
      · rw [if_neg h10]
        have hdiv : n / 10 < n := Nat.div_lt_self (by omega) (by omega)
        have hmod : (digitChar (n % 10)).toNat - 48 = n % 10 := by
          have hall : ∀ d < 10, (digitChar d).toNat - 48 = d := by decide
          exact hall (n % 10) (Nat.mod_lt n (by omega))
        rw [digitsValAux, List.foldl_append]
        have hrec := ih (n / 10) hdiv a
        rw [digitsValAux] at hrec
        rw [hrec]
        simp only [List.foldl_cons, List.foldl_nil, List.length_append,
          List.length_singleton]
        rw [hmod]
        have hpow : a * 10 ^ ((natDigits (n / 10)).length + 1) =
            a * 10 ^ (natDigits (n / 10)).length * 10 := by
          rw [Nat.pow_succ]
          ring
        rw [hpow]
        have hdm := Nat.div_add_mod n 10
        omega

theorem natDigits_injective (m n : Nat) (h : natDigits m = natDigits n) :
    m = n := by
  have hm := digitsValAux_natDigits m 0
  have hn := digitsValAux_natDigits n 0
  rw [h] at hm
  rw [hm] at hn
  omega

theorem natDigits_isDigit (n : Nat) : ∀ c ∈ natDigits n, c.isDigit = true := by
  induction n using Nat.strong_induction_on with
  | _ n ih =>
      intro c hc
      rw [natDigits_unfold] at hc
      have hall : ∀ d < 10, (digitChar d).isDigit = true := by decide
      by_cases h10 : n < 10
      · rw [if_pos h10] at hc
        rcases List.mem_singleton.mp hc with rfl
        exact hall n h10
      · rw [if_neg h10] at hc
        have hdiv : n / 10 < n := Nat.div_lt_self (by omega) (by omega)
        rcases List.mem_append.mp hc with hc2 | hc2
        · exact ih (n / 10) hdiv c hc2
        · rcases List.mem_singleton.mp hc2 with rfl
          exact hall (n % 10) (Nat.mod_lt n (by omega))

theorem natDigits_no_dash (n : Nat) : ∀ c ∈ natDigits n, c ≠ '-' := by
  intro c hc hdash
  have := natDigits_isDigit n c hc
  rw [hdash] at this
  exact absurd this (by decide)

theorem append_dash_digits_inj (x : Str) : ∀ (y ds es : Str),
    (∀ c ∈ ds, c ≠ '-') → (∀ c ∈ es, c ≠ '-') →
    x ++ '-' :: ds = y ++ '-' :: es → x = y ∧ ds = es := by
  induction x with
  | nil =>
      intro y ds es hds hes h
      cases y with
      | nil =>
          rw [List.nil_append, List.nil_append] at h
          injection h with h1 h2
          exact ⟨rfl, h2⟩
      | cons y0 ys =>
          rw [List.nil_append, List.cons_append] at h
          injection h with h1 h2
          exfalso
          exact hds '-' (by rw [h2]; exact List.mem_append_right ys (by simp)) rfl
  | cons x0 xs ih =>
      intro y ds es hds hes h
      cases y with
      | nil =>
          rw [List.cons_append, List.nil_append] at h
          injection h with h1 h2
          exfalso
          exact hes '-' (by rw [← h2]; exact List.mem_append_right xs (by simp))
            rfl
      | cons y0 ys =>
          rw [List.cons_append, List.cons_append] at h
          injection h with h1 h2
          rcases ih ys ds es hds hes h2 with ⟨hxy, hde⟩
          exact ⟨by rw [h1, hxy], hde⟩

theorem slugAll_length (ts : List Str) : ∀ s : Str → Nat,
    (slugAll ts s).length = ts.length := by
  induction ts with
  | nil => intro s; rfl
  | cons t tr ih =>
      intro s
      rw [slugAll, List.length_cons, List.length_cons, ih]

theorem slugAll_getElem (ts : List Str) : ∀ (s : Str → Nat) (i : Nat)
    (hi : i < ts.length) (hi2 : i < (slugAll ts s).length),
    (slugAll ts s)[i] =
      mkSlug (slugBase ts[i])
        (s (slugBase ts[i]) +
          ((ts.take i).map slugBase).count (slugBase ts[i])) := by
  induction ts with
  | nil =>
      intro s i hi
      exact absurd hi (by simp)
  | cons t tr ih =>
      intro s i hi hi2
      cases i with
      | zero =>
          simp only [slugAll, List.getElem_cons_zero, List.take_zero,
            List.map_nil, List.count_nil, Nat.add_zero]
          rw [slugify_fst_eq, mkSlug]
      | succ ip =>
          simp only [slugAll, List.getElem_cons_succ]
          have hip : ip < tr.length := by
            rw [List.length_cons] at hi
            omega
          rw [ih (slugify t s).2 ip hip (by rw [slugAll_length]; exact hip)]
          rw [slugify_snd_eq]
          simp only [List.take_succ_cons, List.map_cons, List.count_cons]
          by_cases hb : slugBase tr[ip] = slugBase t
          · rw [hb]
            simp only [if_pos rfl, beq_self_eq_true, if_pos]
            congr 1
            omega
          · rw [if_neg hb]
            have hbeq : (slugBase t == slugBase tr[ip]) = false := by
              rw [beq_eq_false_iff_ne]
              exact fun hh => hb hh.symm
            rw [hbeq]
            simp

theorem count_take_lt (l : List Str) (i j : Nat) (hi : i < l.length)
    (hij : i < j) :
    (l.take i).count l[i] < (l.take j).count l[i] := by
  have h1 : l.take (i + 1) = l.take i ++ [l[i]] := by
    rw [List.take_succ, List.getElem?_eq_getElem hi]
    rfl
  have h2 : (l.take (i + 1)).count l[i] = (l.take i).count l[i] + 1 := by
    rw [h1, List.count_append]
    simp [List.count_cons]
  have h3 : (l.take (i + 1)).count l[i] ≤ (l.take j).count l[i] := by
    have hsub : l.take (i + 1) = (l.take j).take (i + 1) := by
      rw [List.take_take, Nat.min_eq_left (by omega)]
    rw [hsub]
    exact (List.take_sublist _ _).count_le _
  omega

theorem slugAll_nodup (ts : List Str)
    (H : ∀ b1 ∈ ts.map slugBase, ∀ b2 ∈ ts.map slugBase,
      ∀ k < ts.length + 1, 0 < k → b1 ≠ b2 ++ '-' :: natDigits k) :
    (slugAll ts (fun _ => 0)).Nodup := by
  rw [List.Nodup, List.pairwise_iff_getElem]
  intro i j hi2 hj2 hij
  have hi : i < ts.length := by rw [slugAll_length] at hi2; exact hi2
  have hj : j < ts.length := by rw [slugAll_length] at hj2; exact hj2
  rw [slugAll_getElem ts _ i hi hi2, slugAll_getElem ts _ j hj hj2]
  simp only [Nat.zero_add]
  set bi := slugBase ts[i] with hbi
  set bj := slugBase ts[j] with hbj
  set ci := ((ts.take i).map slugBase).count bi with hci
  set cj := ((ts.take j).map slugBase).count bj with hcj
  have hmi : bi ∈ ts.map slugBase :=
    List.mem_map.mpr ⟨ts[i], List.getElem_mem hi, rfl⟩
  have hmj : bj ∈ ts.map slugBase :=
    List.mem_map.mpr ⟨ts[j], List.getElem_mem hj, rfl⟩
  have hcount : bi = bj → ci < cj := by
    intro hb
    have hmap : i < (ts.map slugBase).length := by
      rw [List.length_map]
      exact hi
    have := count_take_lt (ts.map slugBase) i j hmap hij
    rw [List.getElem_map] at this
    rw [hci, hcj, ← hb, List.map_take, List.map_take]
    exact this
  have hcjn : cj < ts.length + 1 := by
    have h1 : cj ≤ ((ts.take j).map slugBase).length := List.count_le_length _ _
    have h2 : ((ts.take j).map slugBase).length ≤ j := by
      rw [List.length_map, List.length_take]
      omega
    omega
  have hcin : ci < ts.length + 1 := by
    have h1 : ci ≤ ((ts.take i).map slugBase).length := List.count_le_length _ _
    have h2 : ((ts.take i).map slugBase).length ≤ i := by
      rw [List.length_map, List.length_take]
      omega
    omega
  intro heq
  rw [mkSlug, mkSlug] at heq
  split_ifs at heq with h1 h2 h2
  · exact absurd (hcount heq) (by omega)
  · exact H bi hmi bj hmj cj hcjn (by omega) heq
  · exact H bj hmj bi hmi ci hcin (by omega) heq.symm
  · rcases append_dash_digits_inj bi bj (natDigits ci) (natDigits cj)
        (natDigits_no_dash ci) (natDigits_no_dash cj) heq with ⟨hb, hd⟩
    have hcc := natDigits_injective ci cj hd
    have := hcount hb
    omega

theorem buildSectionItems_ids (texts : List Str) : ∀ seen : Str → Nat,
    ((buildSectionItems texts seen).1).map ChecklistItem.id = slugAll texts seen ∧
    (buildSectionItems texts seen).2 = slugStateAfter texts seen := by
  induction texts with
  | nil => intro seen; exact ⟨rfl, rfl⟩
  | cons t ts ih =>
      intro seen
      constructor
      · simp only [buildSectionItems, slugAll, List.map_cons]
        rw [(ih (slugify t seen).2).1]
      · simp only [buildSectionItems, slugStateAfter]
        exact (ih (slugify t seen).2).2

theorem slugAll_append (ts1 : List Str) : ∀ (ts2 : List Str) (s : Str → Nat),
    slugAll (ts1 ++ ts2) s = slugAll ts1 s ++ slugAll ts2 (slugStateAfter ts1 s) := by
  induction ts1 with
  | nil => intro ts2 s; rfl
  | cons t tr ih =>
      intro ts2 s
      simp only [List.cons_append, slugAll, slugStateAfter]
      rw [show tr.append ts2 = tr ++ ts2 from rfl, ih ts2 (slugify t s).2]

theorem buildTemplateSections_ids (secs : List PSection) : ∀ seen : Str → Nat,
    (((buildTemplateSections secs seen).1).map
      (fun s => s.items.map ChecklistItem.id)).flatten =
      slugAll ((secs.map PSection.items).flatten) seen := by
  induction secs with
  | nil => intro seen; rfl
  | cons s ss ih =>
      intro seen
      simp only [buildTemplateSections, List.map_cons, List.flatten_cons]
      rw [(buildSectionItems_ids s.items seen).1,
        (buildSectionItems_ids s.items seen).2, ih, slugAll_append]

theorem bundleIds_eq_slugAll (secs : List PSection) :
    bundleIds secs = slugAll (allLabels secs) (fun _ => 0) := by
  rw [bundleIds, build_bundle_sections, allLabels]
  exact buildTemplateSections_ids secs (fun _ => 0)

/-- Counterexample to C1 as stated: the labels "foo", "foo", "foo 1" (base
slugs "foo", "foo", "foo-1") make `build_bundle` assign the id "foo-1"
twice — the collision suffix attached to the second "foo" coincides with the
base slug of "foo 1". -/
theorem C1_counterexample :
    bundleIds [⟨strOf "Bars", [strOf "foo", strOf "foo", strOf "foo 1"]⟩] =
      [strOf "foo", strOf "foo-1", strOf "foo-1"] ∧
    ¬ (bundleIds [⟨strOf "Bars",
        [strOf "foo", strOf "foo", strOf "foo 1"]⟩]).Nodup :=
  ⟨by decide, by decide⟩

/-- C1 (amended): ids are derived from labels by lowercasing and collapsing
non-alphanumeric runs, with numeric suffixes -1, -2, … appended in
first-seen order (second conjunct: the i-th id is the i-th base slug carrying
its occurrence count among the earlier base slugs), and every id in the
bundle is unique PROVIDED no label's base slug equals another label's base
slug extended by a dash and a positive decimal count (the hypothesis `H`);
without that proviso two items can share an id, as the counterexample
shows. -/
theorem C1_bundle_ids_unique (secs : List PSection)
    (H : ∀ b1 ∈ (allLabels secs).map slugBase,
      ∀ b2 ∈ (allLabels secs).map slugBase,
      ∀ k < (allLabels secs).length + 1, 0 < k →
        b1 ≠ b2 ++ '-' :: natDigits k) :
    (bundleIds secs).Nodup ∧
    (∀ (i : Nat), i < (allLabels secs).length →
      (bundleIds secs).getD i [] =
        mkSlug (slugBase ((allLabels secs).getD i []))
          ((((allLabels secs).take i).map slugBase).count
            (slugBase ((allLabels secs).getD i [])))) := by
  constructor
  · rw [bundleIds_eq_slugAll]
    exact slugAll_nodup (allLabels secs) H
  · intro i hi
    rw [bundleIds_eq_slugAll]
    have hi2 : i < (slugAll (allLabels secs) (fun _ => 0)).length := by
      rw [slugAll_length]
      exact hi
    rw [List.getD_eq_getElem?_getD, List.getElem?_eq_getElem hi2,
      Option.getD_some,
      slugAll_getElem (allLabels secs) (fun _ => 0) i hi hi2]
    rw [List.getD_eq_getElem?_getD, List.getElem?_eq_getElem hi,
      Option.getD_some, Nat.zero_add]

/-- Witness for C1: three labels with bases "pour-beer", "pour-beer", "wine"
satisfy the no-cross-suffix proviso and get the distinct ids "pour-beer",
"pour-beer-1", "wine". -/
theorem C1_witness :
    (bundleIds [⟨strOf "Bars",
      [strOf "Pour beer", strOf "Pour beer", strOf "Wine"]⟩]).Nodup ∧
    (bundleIds [⟨strOf "Bars",
      [strOf "Pour beer", strOf "Pour beer", strOf "Wine"]⟩]).getD 1 [] =
      mkSlug (slugBase (strOf "Pour beer")) 1 := by
  constructor
  · exact (C1_bundle_ids_unique
      [⟨strOf "Bars", [strOf "Pour beer", strOf "Pour beer", strOf "Wine"]⟩]
      (by decide)).1
  · have h := (C1_bundle_ids_unique
      [⟨strOf "Bars", [strOf "Pour beer", strOf "Pour beer", strOf "Wine"]⟩]
      (by decide)).2 1 (by decide)
    rw [h]
    congr 1

end PGR
